import Mathlib

/-!
Verification of the version-resolution core of the `vcs` repository
(package `resolver`: `criteria.go`, `resolver.go`, `version.go`).

The Go code is shallowly embedded: structs become structures, pointer
mutation becomes explicit state passing (methods that mutate their
receiver return the updated value), `sync.Once` becomes an explicit
`once : Bool` flag, and the `panic` in `Criteria.Check` becomes the
`none` case of an `Option` result.  The external Masterminds semver
library (version parsing, version comparison, range parsing and range
checking) is not part of the repository's sources; it is modelled from
the specification's description of version-range expressions, with each
modelled definition marked in its doc comment.

String manipulation is done on `List Char` with structural recursion so
that every definition evaluates by kernel reduction on concrete input.
Go compares strings bytewise; on the ASCII strings involved this agrees
with the code-point comparison used here.
-/

/-- Does the list start with the given pattern?  (Model of Go
`strings.HasPrefix` on rune lists.) -/
def leadsWith : List Char → List Char → Bool
  | _, [] => true
  | [], _ :: _ => false
  | a :: as, b :: bs => a = b && leadsWith as bs

/-- Does the list end with the given pattern?  (Model of Go
`strings.HasSuffix` on rune lists.) -/
def endsWithSeq (s pat : List Char) : Bool := leadsWith s.reverse pat.reverse

/-- Does `s` contain `pat` as a contiguous subsequence?  (Model of Go
`strings.Contains` on rune lists.) -/
def containsSeq : List Char → List Char → Bool
  | [], pat => pat.isEmpty
  | s@(_ :: rest), pat => leadsWith s pat || containsSeq rest pat

/-- Split a character list on a separator character; like Go
`strings.Split`, the result is never empty and splitting the empty list
gives `[[]]`. -/
def splitCharList (sep : Char) : List Char → List (List Char)
  | [] => [[]]
  | ch :: rest =>
    let r := splitCharList sep rest
    if ch = sep then [] :: r
    else
      match r with
      | [] => [[ch]]
      | g :: gs => (ch :: g) :: gs

/-- Lexicographic strict order on character lists; agrees with Go's
bytewise `<` on ASCII strings. -/
def charListLt : List Char → List Char → Bool
  | _, [] => false
  | [], _ :: _ => true
  | a :: as, b :: bs => a < b || (a = b && charListLt as bs)

/-- A non-empty all-digit identifier (parses as a number). -/
def isDigits (l : List Char) : Bool := !l.isEmpty && l.all (fun ch => ch.isDigit)

/-- Numeric value of a digit list. -/
def natOfDigits (l : List Char) : Nat := l.foldl (fun n ch => n * 10 + (ch.toNat - 48)) 0

/-- A valid pre-release / build-metadata identifier: non-empty,
alphanumerics and hyphens. -/
def preIdentOk (l : List Char) : Bool := !l.isEmpty && l.all (fun ch => ch.isAlphanum || ch = '-')

/-- Comparison of two character lists as an `Ordering`. -/
def strCompareL (s o : List Char) : Ordering :=
  if charListLt s o then .lt else if charListLt o s then .gt else .eq

/-- A parsed semantic version.  Modelled from the spec: the semver
library's version record (major/minor/patch numbers, pre-release string,
build metadata); the library itself is an external dependency absent
from the sources. -/
structure SemVer where
  major : Nat
  minor : Nat
  patch : Nat
  pre : String
  meta : String
deriving DecidableEq

/-- Compare two pre-release identifier parts per semver precedence:
numeric identifiers compare numerically and sort below alphanumeric
ones; alphanumeric identifiers compare lexicographically.  Modelled
from the spec (semver precedence of the external library). -/
def comparePrePartL (s o : List Char) : Ordering :=
  if s = o then .eq
  else if s = [] then .lt
  else if o = [] then .gt
  else
    match isDigits s, isDigits o with
    | true, false => .lt
    | false, true => .gt
    | true, true => compare (natOfDigits s) (natOfDigits o)
    | false, false => strCompareL s o

/-- Compare dot-separated pre-release identifier lists; a strict prefix
sorts first.  Modelled from the spec (semver precedence). -/
def comparePreList : List (List Char) → List (List Char) → Ordering
  | [], [] => .eq
  | [], _ :: _ => .lt
  | _ :: _, [] => .gt
  | a :: as, b :: bs => (comparePrePartL a b).then (comparePreList as bs)

/-- Compare two pre-release strings: an empty pre-release (a release)
has higher precedence than any pre-release.  Modelled from the spec
(semver precedence). -/
def comparePre (p q : String) : Ordering :=
  if p = q then .eq
  else if p = "" then .gt
  else if q = "" then .lt
  else comparePreList (splitCharList '.' p.toList) (splitCharList '.' q.toList)

/-- Semantic-version precedence; build metadata is ignored.  Modelled
from the spec (semver precedence). -/
def compareSemVer (a b : SemVer) : Ordering :=
  (compare a.major b.major).then
    ((compare a.minor b.minor).then
      ((compare a.patch b.patch).then (comparePre a.pre b.pre)))

/-- Model of the semver library's `Version.GreaterThan`. -/
def semverGT (a b : SemVer) : Bool := compareSemVer a b = Ordering.gt

/-- Modelled from the spec: semantic-version parsing (the external
semver library's `NewVersion`, absent from the sources).  Accepts an
optional leading `v`, one to three dot-separated numeric core parts
(missing parts default to zero), an optional `-` pre-release of
dot-separated identifiers and an optional `+` build metadata. -/
def parseVersion (s : String) : Option SemVer :=
  let l0 := s.toList
  let l := if leadsWith l0 ['v'] then l0.drop 1 else l0
  match splitCharList '+' l with
  | [] => none
  | core :: metaParts =>
    if metaParts.length > 1 then none
    else
      let metaL := metaParts.headD []
      if metaParts.length = 1 && !((splitCharList '.' metaL).all preIdentOk) then none
      else
        match splitCharList '-' core with
        | [] => none
        | nums :: preParts =>
          let preL := List.intercalate ['-'] preParts
          if !preParts.isEmpty && !((splitCharList '.' preL).all preIdentOk) then none
          else
            let numParts := splitCharList '.' nums
            if numParts.length > 3 || !(numParts.all isDigits) then none
            else
              some { major := natOfDigits (numParts.headD [])
                     minor := natOfDigits ((numParts.drop 1).headD [])
                     patch := natOfDigits ((numParts.drop 2).headD [])
                     pre := String.mk preL
                     meta := String.mk metaL }

/-- Comparison operators of a version-range expression. -/
inductive CmpOp
  | eqc | nec | gtc | ltc | gec | lec | tildec | caretc
deriving DecidableEq

/-- One comparison of a version-range expression: either a wildcard
(`*`, optionally with a pre-release suffix) or an operator applied to a
version. -/
inductive Comparison
  | anyv (pre : String)
  | cmpv (op : CmpOp) (v : SemVer)
deriving DecidableEq

/-- A parsed version range: the conjunction of its comparisons. -/
abbrev VRange := List Comparison

/-- Strip a leading comparison operator from a token. -/
def takeOp (l : List Char) : CmpOp × List Char :=
  if leadsWith l ['>', '='] then (.gec, l.drop 2)
  else if leadsWith l ['=', '>'] then (.gec, l.drop 2)
  else if leadsWith l ['<', '='] then (.lec, l.drop 2)
  else if leadsWith l ['=', '<'] then (.lec, l.drop 2)
  else if leadsWith l ['!', '='] then (.nec, l.drop 2)
  else if leadsWith l ['>'] then (.gtc, l.drop 1)
  else if leadsWith l ['<'] then (.ltc, l.drop 1)
  else if leadsWith l ['='] then (.eqc, l.drop 1)
  else if leadsWith l ['~'] then (.tildec, l.drop 1)
  else if leadsWith l ['^'] then (.caretc, l.drop 1)
  else (.eqc, l)

/-- Parse one comparison token of a range expression. -/
def parseComparison (tok : List Char) : Option Comparison :=
  let opRest := takeOp tok
  let rest := opRest.2
  if rest.isEmpty then none
  else
    match splitCharList '-' rest with
    | ['*'] :: preParts =>
      if preParts.isEmpty then some (.anyv "")
      else
        let preL := List.intercalate ['-'] preParts
        if (splitCharList '.' preL).all preIdentOk then some (.anyv (String.mk preL)) else none
    | _ => (parseVersion (String.mk rest)).map (fun v => .cmpv opRest.1 v)

/-- Modelled from the spec: version-range parsing (the external semver
library's `NewConstraint`, absent from the sources) for a single
conjunction: comparisons separated by spaces or commas, each an optional
operator followed by a version or the wildcard `*`.  `||` never reaches
this parser — the repository rejects it beforehand. -/
def parseConstraint (s : String) : Option VRange :=
  let toks := (splitCharList ' ' (s.toList.map (fun ch => if ch = ',' then ' ' else ch))).filter
    (fun t => !t.isEmpty)
  if toks.isEmpty then none
  else toks.mapM parseComparison

/-- Modelled from the spec: evaluation of one comparison against a
version.  A version carrying a pre-release satisfies a comparison only
if the comparison's own version carries a pre-release (pre-release
acceptance is opt-in). -/
def checkComparison (co : Comparison) (v : SemVer) : Bool :=
  match co with
  | .anyv p => if v.pre ≠ "" ∧ p = "" then false else true
  | .cmpv op cv =>
    if v.pre ≠ "" ∧ cv.pre = "" then false
    else
      let c := compareSemVer v cv
      match op with
      | .eqc => decide (c = Ordering.eq)
      | .nec => decide (c ≠ Ordering.eq)
      | .gtc => decide (c = Ordering.gt)
      | .ltc => decide (c = Ordering.lt)
      | .gec => decide (c ≠ Ordering.lt)
      | .lec => decide (c ≠ Ordering.gt)
      | .tildec => decide (v.major = cv.major ∧ v.minor = cv.minor ∧ c ≠ Ordering.lt)
      | .caretc => decide (v.major = cv.major ∧ c ≠ Ordering.lt)

/-- Modelled from the spec: evaluation of a parsed range (the external
semver library's `Constraints.Check`): every comparison of the
conjunction must pass. -/
def rangeCheck (r : VRange) (v : SemVer) : Bool := r.all (fun co => checkComparison co v)

/-- Model of `constRexp.ReplaceAllString(s, "")` for the anchored
pattern matching leading non-`v` non-digit characters
(criteria.go line 30). -/
def stripConstChars (s : String) : String :=
  String.mk (s.toList.dropWhile (fun ch => ch ≠ 'v' ∧ ¬ ch.isDigit))

/-- The only error `Criteria.Parse` can return.  In the Go code the
error of `semver.NewConstraint` is assigned to a closure-local `err`
shadowing the returned one (criteria.go lines 74-85), so a constraint
that fails to parse as a range produces no error. -/
inductive ParseError
  | unsupportedConstraint
deriving DecidableEq

/-- `Criteria` (criteria.go lines 34-55): the user-supplied `Constraint`
and `Branch` strings plus the internal parsed range `c`, extracted
pre-release track `prerelease` and the `sync.Once` guard, modelled as
the flag `once`. -/
structure Criteria where
  c : Option VRange
  prerelease : String
  once : Bool
  Constraint : String
  Branch : String
deriving DecidableEq

/-- A freshly constructed criteria value, as a Go composite literal
setting only `Constraint` and `Branch` (internal fields zero). -/
def mkCriteria (constraintStr branchStr : String) : Criteria :=
  { c := none, prerelease := "", once := false, Constraint := constraintStr, Branch := branchStr }

/-- `Criteria.Parse` (criteria.go lines 59-90).  The method mutates its
receiver; the updated value is returned together with the error.  Of
note: the `sync.Once` body runs only on the first call (later calls
return `nil` whatever the first returned), and the error of
`semver.NewConstraint` is assigned to a shadowed local and therefore
never returned — only the complex-constraint error escapes. -/
def Criteria.Parse (cr : Criteria) : Criteria × Option ParseError :=
  if cr.once then (cr, none)
  else
    let cr1 := { cr with once := true }
    if cr1.Constraint = "" then (cr1, none)
    else if containsSeq cr1.Constraint.toList ['|', '|'] ∨
        containsSeq cr1.Constraint.toList ['&', '&'] then
      (cr1, some ParseError.unsupportedConstraint)
    else
      let cv := stripConstChars cr1.Constraint
      let cr2 :=
        match parseVersion cv with
        | some vc => { cr1 with prerelease := String.mk ((splitCharList '.' vc.pre.toList).headD []) }
        | none => cr1
      ({ cr2 with c := parseConstraint cr2.Constraint }, none)

/-- `Version` (version.go lines 28-45). -/
structure Version where
  Commit : String
  Tag : String
  sv : Option SemVer
  Virtual : String
  Branch : String
deriving DecidableEq

/-- `Criteria.Check` (criteria.go lines 96-139).  The method can mutate
its receiver (the pre-release rewrite of the constraint), so the updated
criteria value is returned with the result; `none` models the `panic`
when the rewritten constraint fails to re-parse. -/
def Criteria.Check (cr : Criteria) (v : Version) (prerelease branch : String) :
    Option (Bool × Criteria) :=
  if cr.Branch ≠ "" ∧ v.Branch = cr.Branch then some (true, cr)
  else if branch ≠ "" ∧ cr.Branch = "" then some (true, cr)
  else
    match cr.c, v.sv with
    | some rng, some sv =>
      if cr.prerelease ≠ "" ∧ cr.prerelease ≠ prerelease then some (false, cr)
      else if prerelease ≠ "" ∧ cr.prerelease = "" then
        match parseConstraint (cr.Constraint ++ "-" ++ prerelease) with
        | none => none
        | some rng2 =>
          some (rangeCheck rng2 sv,
            { cr with Constraint := cr.Constraint ++ "-" ++ prerelease,
                      c := some rng2, prerelease := prerelease })
      else some (rangeCheck rng sv, cr)
    | _, _ => some (false, cr)

/-- The comparison closure passed to `sort.Slice` in `Resolver.Resolve`
(resolver.go lines 180-197): tagged versions (parsed semver present)
order by semver descending; a tagged version sorts before a non-tagged
one; two branch versions order by branch name ascending. -/
def versionLess (i j : Version) : Bool :=
  match i.sv, j.sv with
  | some x, some y => semverGT x y
  | some _, none => true
  | none, some _ => false
  | none, none => charListLt i.Branch.toList j.Branch.toList

/-- The sort order as the spec words it (§4.3 step 4): both tagged →
parsed semantic versions descending; one tagged → the tagged one first;
neither tagged → branch names ascending.  Written from the spec for
comparison with `versionLess`. -/
def specVersionLess (a b : Version) : Bool :=
  if a.Tag ≠ "" ∧ b.Tag ≠ "" then
    match a.sv, b.sv with
    | some x, some y => semverGT x y
    | _, _ => false
  else if a.Tag ≠ "" then true
  else if b.Tag ≠ "" then false
  else charListLt a.Branch.toList b.Branch.toList

/-- A version is well formed (as every version the resolver discovers
is) when its parsed-semver handle is present exactly when its tag is
set. -/
def wfVersion (v : Version) : Bool := decide (v.Tag ≠ "") == v.sv.isSome

/-- Insertion step of the sort: the element goes before the first
position whose occupant is not less than it. -/
def insertSorted (x : Version) : List Version → List Version
  | [] => [x]
  | y :: ys => if versionLess y x then y :: insertSorted x ys else x :: y :: ys

/-- The sort applied by `Resolver.Resolve` to the version list, as a
comparison sort over `versionLess`.  Go's `sort.Slice` is unstable and
leaves the relative order of incomparable elements unspecified; this
model fixes the stable permutation. -/
def sortVersions (l : List Version) : List Version := l.foldr insertSorted []

/-- Interpretation of one remote-listing row (resolver.go lines 88-122):
a `[commit, ref]` pair becomes a tagged version if the ref is a
non-annotated semver tag, a branch version if it is a head, and is
skipped otherwise. -/
def rowToVersion (row : List String) : Option Version :=
  match row with
  | [commit, ref] =>
    if leadsWith ref.toList "refs/tags/".toList then
      if endsWithSeq ref.toList ['^', '\x7b', '\x7d'] then none
      else
        let tag := ref.drop 10
        match parseVersion tag with
        | some sv =>
          some { Commit := commit, Tag := tag, sv := some sv, Virtual := "", Branch := "" }
        | none => none
    else if leadsWith ref.toList "refs/heads/".toList then
      some { Commit := commit, Tag := "", sv := none, Virtual := "", Branch := ref.drop 11 }
    else none
  | _ => none

/-- `Resolver` (resolver.go lines 44-51): the per-URI version cache,
modelled as an association list. -/
structure Resolver where
  versions : List (String × List Version)
deriving DecidableEq

/-- `NewResolver` (resolver.go lines 54-58). -/
def NewResolver : Resolver := { versions := [] }

/-- Map lookup on the cache. -/
def lookupCache (m : List (String × List Version)) (k : String) : Option (List Version) :=
  match m with
  | [] => none
  | (k1, v1) :: rest => if k1 = k then some v1 else lookupCache rest k

/-- Map write on the cache. -/
def setCache (m : List (String × List Version)) (k : String) (v : List Version) :
    List (String × List Version) :=
  match m with
  | [] => [(k, v)]
  | (k1, v1) :: rest => if k1 = k then (k, v) :: rest else (k1, v1) :: setCache rest k v

/-- `Resolver.fetchVersionsIfNecessary` (resolver.go lines 63-129).  The
listing collaborator is a parameter; the third component records whether
it was invoked by this call. -/
def fetchVersionsIfNecessary (listRemote : String → Except String (List (List String)))
    (r : Resolver) (uri : String) : Except String (List Version) × Resolver × Bool :=
  match lookupCache r.versions uri with
  | some vs => (.ok vs, r, false)
  | none =>
    match listRemote uri with
    | .error msg => (.error msg, r, true)
    | .ok rows =>
      let vers := rows.filterMap rowToVersion
      (.ok vers, { versions := setCache r.versions uri vers }, true)

/-- The failure modes of `Resolver.Resolve` (resolver.go): in order of
occurrence, no criteria, conflicting branch pins, a criteria parse
failure, conflicting pre-release tracks, a listing failure, and the
terminal no-match outcome `ErrUnableToSatisfy`. -/
inductive ResolveError
  | noCriteria
  | conflictingBranch (b1 b2 : String)
  | criteriaParse (e : ParseError)
  | conflictingPrerelease (p1 p2 : String)
  | listing (msg : String)
  | unableToSatisfy
deriving DecidableEq

/-- Outcome of `Resolver.Resolve`; `panicked` models the `panic` inside
`Criteria.Check`. -/
inductive ResolveResult
  | ok (v : Version)
  | err (e : ResolveError)
  | panicked
deriving DecidableEq

/-- The criteria loop at the head of `Resolver.Resolve` (resolver.go
lines 144-175): per criterion, unify its branch (conflict → error),
parse it (error → propagate), then unify its pre-release track (conflict
→ error).  Criteria are mutated in place by `Parse`, so the updated list
is returned alongside the unified track and branch. -/
def resolveParseLoop : List Criteria → String → String →
    Option ResolveError × List Criteria × String × String
  | [], pr, br => (none, [], pr, br)
  | cr :: rest, pr, br =>
    if cr.Branch ≠ "" ∧ br ≠ "" ∧ br ≠ cr.Branch then
      (some (.conflictingBranch br cr.Branch), cr :: rest, pr, br)
    else
      let br1 := if cr.Branch ≠ "" then cr.Branch else br
      let parsed := cr.Parse
      match parsed.2 with
      | some e => (some (.criteriaParse e), parsed.1 :: rest, pr, br1)
      | none =>
        let cr1 := parsed.1
        if cr1.c.isSome ∧ cr1.prerelease ≠ "" then
          if pr ≠ "" ∧ pr ≠ cr1.prerelease then
            (some (.conflictingPrerelease pr cr1.prerelease), cr1 :: rest, pr, br1)
          else
            let res := resolveParseLoop rest cr1.prerelease br1
            (res.1, cr1 :: res.2.1, res.2.2)
        else
          let res := resolveParseLoop rest pr br1
          (res.1, cr1 :: res.2.1, res.2.2)

/-- The inner loop of the selection phase (resolver.go lines 207-213):
check each criterion against the version, stopping at the first failure;
`Check` can mutate criteria, so the updated list is threaded through.
`none` propagates the `Check` panic. -/
def checkAll : List Criteria → Version → String → String → Option (Bool × List Criteria)
  | [], _, _, _ => some (true, [])
  | cr :: rest, v, pr, br =>
    match cr.Check v pr br with
    | none => none
    | some (false, cr1) => some (false, cr1 :: rest)
    | some (true, cr1) =>
      match checkAll rest v pr br with
      | none => none
      | some (res, rest1) => some (res, cr1 :: rest1)

/-- The outer loop of the selection phase (resolver.go lines 203-221):
walk the versions in order and return the first one whose criteria all
check out. -/
def selectLoop (crits : List Criteria) (pr br : String) :
    List Version → Option (Option Version × List Criteria)
  | [] => some (none, crits)
  | v :: vs =>
    match checkAll crits v pr br with
    | none => none
    | some (true, crits1) => some (some v, crits1)
    | some (false, crits1) => selectLoop crits1 pr br vs

/-- Modelled from the spec (§4.3 step 5): "Walk the sorted list; the
first version for which every supplied criterion's `Check` returns true
(using the unified track/branch from step 2) is the result."  Check
mutations are threaded through the walk; checking a version stops at its
first failing criterion. -/
def specWalk (crits : List Criteria) (pr br : String) :
    List Version → Option (Option Version × List Criteria)
  | [] => some (none, crits)
  | v :: vs =>
    match checkAll crits v pr br with
    | none => none
    | some (true, crits1) => some (some v, crits1)
    | some (false, crits1) => specWalk crits1 pr br vs

/-- `Resolver.Resolve` (resolver.go lines 137-226).  Returns the
outcome, the updated resolver (the sort reorders the cached slice in
place, modelled by writing the sorted list back), the updated criteria
(mutated in place in Go) and whether the listing collaborator was
invoked. -/
def Resolver.Resolve (listRemote : String → Except String (List (List String)))
    (r : Resolver) (uri : String) (criteria : List Criteria) :
    ResolveResult × Resolver × List Criteria × Bool :=
  if criteria.isEmpty then (.err .noCriteria, r, criteria, false)
  else
    match resolveParseLoop criteria "" "" with
    | (some e, crits, _, _) => (.err e, r, crits, false)
    | (none, crits, pr, br) =>
      match fetchVersionsIfNecessary listRemote r uri with
      | (.error msg, r1, fetched) => (.err (.listing msg), r1, crits, fetched)
      | (.ok vers, r1, fetched) =>
        let sorted := sortVersions vers
        let r2 : Resolver := { versions := setCache r1.versions uri sorted }
        match selectLoop crits pr br sorted with
        | none => (.panicked, r2, crits, fetched)
        | some (some v, crits2) => (.ok v, r2, crits2, fetched)
        | some (none, crits2) => (.err .unableToSatisfy, r2, crits2, fetched)

/-- One queued `Resolve` call, for stating properties of call
sequences. -/
structure RRequest where
  uri : String
  criteria : List Criteria

/-- Run a sequence of `Resolve` calls against one resolver, logging for
each call its URI and whether the listing collaborator was invoked. -/
def runResolves (listRemote : String → Except String (List (List String))) (r : Resolver) :
    List RRequest → Resolver × List (String × Bool)
  | [] => (r, [])
  | q :: qs =>
    let step := Resolver.Resolve listRemote r q.uri q.criteria
    let rest := runResolves listRemote step.2.1 qs
    (rest.1, (q.uri, step.2.2.2) :: rest.2)

/-- How many calls of the log invoked the collaborator for the given
URI. -/
def fetchCount (u : String) (log : List (String × Bool)) : Nat :=
  (log.filter (fun p => decide (p.1 = u) && p.2)).length

/-- The pre-release track the `Resolve` criteria loop would observe for
a criterion: present when, once parsed, the criterion holds a parsed
range and a non-empty track. -/
def prTrack (cr : Criteria) : Option String :=
  let p := cr.Parse.1
  if p.c.isSome ∧ p.prerelease ≠ "" then some p.prerelease else none

/-- Is the error one of the two conflict errors? -/
def isConflictErr : ResolveError → Bool
  | .conflictingBranch _ _ => true
  | .conflictingPrerelease _ _ => true
  | _ => false

/-! ## Helper lemmas -/

/-- Once the `sync.Once` guard has fired, `Parse` is an identity
returning no error. -/
theorem parse_of_once (cr : Criteria) (h : cr.once = true) : cr.Parse = (cr, none) := by
  unfold Criteria.Parse
  simp [h]

/-- Every `Parse` call leaves the once-guard set. -/
theorem parse_sets_once (cr : Criteria) : cr.Parse.1.once = true := by
  unfold Criteria.Parse
  by_cases h : cr.once = true
  · simp [h]
  · simp [h]
    split
    · rfl
    · split
      · rfl
      · split <;> rfl

/-! ## C1 -/

/-- C1: the claim says a non-empty constraint without logical
combinators that fails to parse as a version range makes the first
`Parse` return an `InvalidConstraint` error.  The code disagrees: the
error of the range parse is assigned to a shadowed local (criteria.go
line 83 assigns the closure-local `err` introduced by `:=` on line 77),
so `Parse` on the unparseable constraint `"bogus"` returns no error and
leaves the parsed range `nil`. -/
theorem C1_parse_swallows_range_error :
    (mkCriteria "bogus" "").Parse =
      ({ c := none, prerelease := "", once := true, Constraint := "bogus", Branch := "" },
        none) := by
  decide

/-! ## C2 -/

/-- C2 counterexample: `Parse` is not result-idempotent.  On the
criteria with constraint `"a||b"` the first call returns the
unsupported-constraint error, but the second call returns no error (the
`sync.Once` body does not re-run and the call-local `err` stays nil), so
not every call returns the error the first parse produced. -/
theorem C2_counterexample :
    (mkCriteria "a||b" "").Parse.2 = some ParseError.unsupportedConstraint ∧
    (mkCriteria "a||b" "").Parse.1.Parse.2 = none := by
  decide

/-- C2 (amended): the underlying parse work runs exactly once, and every
call after the first is a no-op returning no error: the state is
unchanged and the result is `nil`.  Hence calls after a successful first
parse return the same success, but a first-call error is not returned
again. -/
theorem C2_parse_noop_after_first (cr : Criteria) :
    cr.Parse.1.Parse = (cr.Parse.1, none) :=
  parse_of_once _ (parse_sets_once cr)

/-! ## C6 -/

/-- C6: with a parsed range and a semver-carrying version, outside the
branch-pin and vacuous-branch cases, a criterion whose own pre-release
track is non-empty and differs from the resolution's track rejects the
version (and leaves the criteria unchanged): a tag from a different
pre-release track never satisfies a constraint pinned to another
track. -/
theorem C6_prerelease_track_isolation (cr : Criteria) (v : Version) (pr br : String)
    (hc : cr.c.isSome = true) (hv : v.sv.isSome = true)
    (hpre : cr.prerelease ≠ "") (hne : cr.prerelease ≠ pr)
    (hb1 : ¬ (cr.Branch ≠ "" ∧ v.Branch = cr.Branch))
    (hb2 : ¬ (br ≠ "" ∧ cr.Branch = "")) :
    cr.Check v pr br = some (false, cr) := by
  unfold Criteria.Check
  rw [if_neg hb1, if_neg hb2]
  obtain ⟨rng, hrng⟩ := Option.isSome_iff_exists.mp hc
  obtain ⟨sv, hsv⟩ := Option.isSome_iff_exists.mp hv
  rw [hrng, hsv]
  simp [hpre, hne]

/-- Concrete instance for C6: the criterion `"1.2.0-alpha"` (track
`alpha`) rejects the tag `v1.2.0-beta.1` when the resolution track is
`beta`. -/
def c6cr : Criteria := (mkCriteria "1.2.0-alpha" "").Parse.1

/-- The discovered version for tag `v1.2.0-beta.1`. -/
def c6v : Version :=
  { Commit := "c", Tag := "v1.2.0-beta.1", sv := parseVersion "v1.2.0-beta.1",
    Virtual := "", Branch := "" }

/-- Witness for C6 at a concrete input. -/
theorem C6_witness : c6cr.Check c6v "beta" "" = some (false, c6cr) :=
  C6_prerelease_track_isolation c6cr c6v "beta" ""
    (by decide) (by decide) (by decide) (by decide) (by decide) (by decide)

/-! ## C7 -/

/-- C7: when the resolution asks for a specific branch but the criterion
has no branch of its own, `Check` succeeds vacuously for every version,
whatever the criterion's constraint and the version's fields. -/
theorem C7_vacuous_branch (cr : Criteria) (v : Version) (pr br : String)
    (hbr : cr.Branch = "") (h : br ≠ "") :
    cr.Check v pr br = some (true, cr) := by
  unfold Criteria.Check
  rw [if_neg (by simp [hbr]), if_pos ⟨h, hbr⟩]

/-- Witness for C7 at a concrete input: an unsatisfiable range criterion
is vacuously satisfied by a tag version once a branch resolution is in
effect. -/
theorem C7_witness :
    ((mkCriteria ">=9.9.9" "").Parse.1.Check
      { Commit := "c", Tag := "v1.0.0", sv := parseVersion "v1.0.0", Virtual := "", Branch := "" }
      "" "main") = some (true, (mkCriteria ">=9.9.9" "").Parse.1) :=
  C7_vacuous_branch _ _ "" "main" (by decide) (by decide)

/-! ## Ordering lemmas for the sort -/

/-- Swapping distributes over `Ordering.then`. -/
theorem ordering_then_swap (x y : Ordering) : (x.then y).swap = x.swap.then y.swap := by
  cases x <;> rfl

/-- Reversed natural-number comparison is the swap. -/
theorem natCompareSwap (m n : Nat) : compare n m = (compare m n).swap := by
  rcases Nat.lt_trichotomy m n with h | h | h
  · rw [Nat.compare_eq_lt.2 h, Nat.compare_eq_gt.2 h]; rfl
  · rw [Nat.compare_eq_eq.2 h, Nat.compare_eq_eq.2 h.symm]; rfl
  · rw [Nat.compare_eq_gt.2 h, Nat.compare_eq_lt.2 h]; rfl

/-- `charListLt` is asymmetric. -/
theorem charListLt_asymm : ∀ {x y : List Char}, charListLt x y = true → charListLt y x = false
  | _, [], h => by simp [charListLt] at h
  | [], _ :: _, _ => by simp [charListLt]
  | a :: as, b :: bs, h => by
    simp [charListLt] at h ⊢
    rcases h with h | ⟨rfl, h⟩
    · exact ⟨le_of_lt h, fun he => absurd (he ▸ h) (lt_irrefl _)⟩
    · exact ⟨le_refl _, fun _ => charListLt_asymm h⟩

/-- Reversed character-list comparison is the swap. -/
theorem strCompareL_swap (s o : List Char) : strCompareL o s = (strCompareL s o).swap := by
  unfold strCompareL
  by_cases h1 : charListLt s o = true
  · simp only [h1, charListLt_asymm h1, if_true, if_false, Bool.false_eq_true]
    rfl
  · by_cases h2 : charListLt o s = true
    · simp only [h1, h2, if_true, if_false, Bool.false_eq_true]
      rfl
    · simp only [h1, h2, if_false, Bool.false_eq_true]
      rfl

/-- Reversed pre-release part comparison is the swap. -/
theorem comparePrePartL_swap (s o : List Char) : comparePrePartL o s = (comparePrePartL s o).swap := by
  unfold comparePrePartL
  by_cases h : s = o
  · subst h
    simp
    rfl
  · have h' : o ≠ s := fun he => h he.symm
    by_cases hs : s = []
    · subst hs
      simp [h, h']
      rfl
    · by_cases ho : o = []
      · subst ho
        simp [h, h', hs]
        rfl
      · simp only [if_neg h, if_neg h', if_neg hs, if_neg ho]
        rcases hds : isDigits s <;> rcases hdo : isDigits o <;> simp only [hds, hdo]
        · exact strCompareL_swap s o
        · rfl
        · rfl
        · exact natCompareSwap _ _

/-- Reversed pre-release list comparison is the swap. -/
theorem comparePreList_swap : ∀ (a b : List (List Char)), comparePreList b a = (comparePreList a b).swap
  | [], [] => rfl
  | [], _ :: _ => rfl
  | _ :: _, [] => rfl
  | a :: as, b :: bs => by
    rw [comparePreList, comparePreList, comparePrePartL_swap, comparePreList_swap as bs,
      ordering_then_swap]

/-- Reversed pre-release string comparison is the swap. -/
theorem comparePre_swap (p q : String) : comparePre q p = (comparePre p q).swap := by
  unfold comparePre
  by_cases h : p = q
  · subst h
    simp
    rfl
  · have h' : q ≠ p := fun he => h he.symm
    by_cases hp : p = ""
    · subst hp
      simp [h, h']
      rfl
    · by_cases hq : q = ""
      · subst hq
        simp [h, h', hp]
        rfl
      · simp only [if_neg h, if_neg h', if_neg hp, if_neg hq]
        exact comparePreList_swap _ _

/-- Reversed semantic-version comparison is the swap. -/
theorem compareSemVer_swap (a b : SemVer) : compareSemVer b a = (compareSemVer a b).swap := by
  unfold compareSemVer
  rw [natCompareSwap a.major b.major, natCompareSwap a.minor b.minor,
    natCompareSwap a.patch b.patch, comparePre_swap a.pre b.pre,
    ordering_then_swap, ordering_then_swap, ordering_then_swap]

/-- `semverGT` is asymmetric. -/
theorem semverGT_asymm {a b : SemVer} (h : semverGT a b = true) : semverGT b a = false := by
  simp only [semverGT, decide_eq_true_eq] at h
  simp only [semverGT, compareSemVer_swap a b, h, decide_eq_false_iff_not]
  intro hc
  cases hc

/-- The sort comparison is asymmetric: two versions are never each less
than the other. -/
theorem versionLess_asymm {x y : Version} (h : versionLess x y = true) : versionLess y x = false := by
  unfold versionLess at h ⊢
  rcases hx : x.sv with _ | a <;> rcases hy : y.sv with _ | b <;> rw [hx, hy] at h <;> try rfl
  · exact charListLt_asymm h
  · cases h
  · exact semverGT_asymm h

/-- Under the discovered-version well-formedness invariant (semver handle
present exactly when the tag is set), the comparison the code passes to
`sort.Slice` coincides pointwise with the order the spec describes. -/
theorem versionLess_eq_spec (a b : Version) (ha : wfVersion a = true) (hb : wfVersion b = true) :
    versionLess a b = specVersionLess a b := by
  unfold wfVersion at ha hb
  unfold versionLess specVersionLess
  rcases hsa : a.sv with _ | x <;> rcases hsb : b.sv with _ | y <;>
      rw [hsa] at ha <;> rw [hsb] at hb <;>
      simp only [Option.isSome_none, Option.isSome_some, beq_iff_eq, decide_eq_false_iff_not,
        decide_eq_true_eq, not_not] at ha hb <;>
      simp [ha, hb]

/-- Inserting keeps the insertion-sort output a permutation. -/
theorem insertSorted_perm (x : Version) (l : List Version) :
    List.Perm (insertSorted x l) (x :: l) := by
  induction l with
  | nil => exact List.Perm.refl _
  | cons y ys ih =>
    rw [insertSorted]
    by_cases h : versionLess y x = true
    · rw [if_pos h]
      exact (ih.cons y).trans (List.Perm.swap x y ys)
    · rw [if_neg h]

/-- The sort's output is a permutation of its input. -/
theorem sortVersions_perm (l : List Version) : List.Perm (sortVersions l) l := by
  induction l with
  | nil => exact List.Perm.refl _
  | cons v vs ih =>
    exact (insertSorted_perm v (sortVersions vs)).trans (ih.cons v)

/-- The head of an insertion is the new element or the old head. -/
theorem insertSorted_head (x : Version) (ys : List Version) :
    (insertSorted x ys).head? = some x ∨ (insertSorted x ys).head? = ys.head? := by
  cases ys with
  | nil => left; rfl
  | cons y ys =>
    rw [insertSorted]
    by_cases h : versionLess y x = true
    · rw [if_pos h]; right; rfl
    · rw [if_neg h]; left; rfl

/-- Inserting into a sorted list keeps it sorted (adjacent pairs never
inverted for the sort's comparison). -/
theorem insertSorted_chain (x : Version) (l : List Version)
    (h : List.Chain' (fun a b => versionLess b a = false) l) :
    List.Chain' (fun a b => versionLess b a = false) (insertSorted x l) := by
  induction l with
  | nil => simp [insertSorted]
  | cons y ys ih =>
    rw [insertSorted]
    by_cases hyx : versionLess y x = true
    · rw [if_pos hyx]
      rw [List.chain'_cons'] at h ⊢
      refine ⟨?_, ih h.2⟩
      intro z hz
      rcases insertSorted_head x ys with hh | hh
      · rw [hh] at hz
        cases hz
        exact versionLess_asymm hyx
      · rw [hh] at hz
        exact h.1 z hz
    · rw [if_neg hyx]
      rw [List.chain'_cons]
      exact ⟨Bool.eq_false_iff.mpr (fun hc => hyx hc), h⟩

/-- The sort's output is sorted. -/
theorem sortVersions_chain (l : List Version) :
    List.Chain' (fun a b => versionLess b a = false) (sortVersions l) := by
  induction l with
  | nil => exact List.chain'_nil
  | cons v vs ih => exact insertSorted_chain v (sortVersions vs) ih

/-! ## C3 -/

/-- C3: the sort performed by `Resolve` realises the spec's total order
on discovered versions: the output is a permutation of the input, is
sorted for the code's comparison (no adjacent pair inverted), and on
well-formed (discovered) versions the code's comparison agrees pointwise
with the spec's order — tagged pairs by semantic version descending,
tagged before branch-only, branch-only pairs by name ascending. -/
theorem C3_sort_total_order (l : List Version) (hwf : ∀ v ∈ l, wfVersion v = true) :
    List.Perm (sortVersions l) l ∧
    List.Chain' (fun a b => versionLess b a = false) (sortVersions l) ∧
    ∀ a ∈ l, ∀ b ∈ l, versionLess a b = specVersionLess a b := by
  refine ⟨sortVersions_perm l, sortVersions_chain l, ?_⟩
  intro a hac b hbc
  exact versionLess_eq_spec a b (hwf a hac) (hwf b hbc)

/-- Concrete version list for the C3 witness: two tags and two
branches. -/
def c3list : List Version :=
  [ { Commit := "c1", Tag := "v1.0.0", sv := parseVersion "v1.0.0", Virtual := "", Branch := "" },
    { Commit := "c4", Tag := "", sv := none, Virtual := "", Branch := "zeta" },
    { Commit := "c3", Tag := "v2.0.0", sv := parseVersion "v2.0.0", Virtual := "", Branch := "" },
    { Commit := "c2", Tag := "", sv := none, Virtual := "", Branch := "main" } ]

/-- Witness for C3 at a concrete input. -/
theorem C3_witness :
    List.Perm (sortVersions c3list) c3list ∧
    List.Chain' (fun a b => versionLess b a = false) (sortVersions c3list) ∧
    ∀ a ∈ c3list, ∀ b ∈ c3list, versionLess a b = specVersionLess a b :=
  C3_sort_total_order c3list (by decide)

/-! ## C8 -/

/-- A criterion whose pre-release track is already non-empty is never
mutated by `Check`: every non-panicking call returns the criteria
unchanged. -/
theorem check_no_mutation (cr : Criteria) (hne : cr.prerelease ≠ "") (v : Version) (pr br : String) :
    ∀ b cr2, cr.Check v pr br = some (b, cr2) → cr2 = cr := by
  intro b cr2 h
  unfold Criteria.Check at h
  by_cases h1 : cr.Branch ≠ "" ∧ v.Branch = cr.Branch
  · rw [if_pos h1] at h; cases h; rfl
  · rw [if_neg h1] at h
    by_cases h2 : br ≠ "" ∧ cr.Branch = ""
    · rw [if_pos h2] at h; cases h; rfl
    · rw [if_neg h2] at h
      rcases hc : cr.c with _ | rng <;> rcases hv : v.sv with _ | sv <;> simp only [hc, hv] at h
      · cases h; rfl
      · cases h; rfl
      · cases h; rfl
      · by_cases h3 : cr.prerelease ≠ "" ∧ cr.prerelease ≠ pr
        · rw [if_pos h3] at h; cases h; rfl
        · rw [if_neg h3] at h
          rw [if_neg (fun hx => hne hx.2)] at h
          cases h; rfl

/-- C8: when pre-release accommodation applies (parsed range, empty own
track, non-empty resolution track, semver-carrying version, outside the
branch cases), `Check` rewrites the constraint in place exactly once by
appending the dash and track and re-parsing (hypothesis `hparse` gives
the successful re-parse, the case the code treats as the only
non-panicking one), after which the criterion's own track equals the
resolution track; a criterion whose track is non-empty is never mutated
by any later `Check`; and the rewritten criterion thereafter evaluates
the rewritten range against versions (in particular versions on that
track), rather than rejecting them outright. -/
theorem C8_prerelease_rewrite (cr : Criteria) (v : Version) (pr br : String)
    (rng : VRange) (sv : SemVer) (rng2 : VRange)
    (hc : cr.c = some rng) (hv : v.sv = some sv)
    (hpre : cr.prerelease = "") (hp : pr ≠ "")
    (hb1 : ¬ (cr.Branch ≠ "" ∧ v.Branch = cr.Branch))
    (hb2 : ¬ (br ≠ "" ∧ cr.Branch = ""))
    (hparse : parseConstraint (cr.Constraint ++ "-" ++ pr) = some rng2) :
    cr.Check v pr br =
      some (rangeCheck rng2 sv,
        { cr with Constraint := cr.Constraint ++ "-" ++ pr, c := some rng2, prerelease := pr }) ∧
    (∀ (cr1 : Criteria), cr1.prerelease ≠ "" → ∀ v1 pr1 br1 b cr2,
        cr1.Check v1 pr1 br1 = some (b, cr2) → cr2 = cr1) ∧
    (∀ (v2 : Version) (sv2 : SemVer), v2.sv = some sv2 →
      ¬ (cr.Branch ≠ "" ∧ v2.Branch = cr.Branch) →
      Criteria.Check
          { cr with Constraint := cr.Constraint ++ "-" ++ pr, c := some rng2, prerelease := pr }
          v2 pr br =
        some (rangeCheck rng2 sv2,
          { cr with Constraint := cr.Constraint ++ "-" ++ pr, c := some rng2, prerelease := pr })) := by
  refine ⟨?_, ?_, ?_⟩
  · unfold Criteria.Check
    rw [if_neg hb1, if_neg hb2, hc, hv]
    simp [hpre, hp, hparse]
  · intro cr1 hne v1 pr1 br1 b cr2 hchk
    exact check_no_mutation cr1 hne v1 pr1 br1 b cr2 hchk
  · intro v2 sv2 hv2 hb1v
    unfold Criteria.Check
    rw [if_neg (by simpa using hb1v), if_neg (by simpa using hb2), hv2]
    simp [hp]

/-- Concrete criterion for the C8 witness: the parsed range
`">=1.0.0"`, which carries no pre-release track of its own. -/
def c8cr : Criteria := (mkCriteria ">=1.0.0" "").Parse.1

/-- The discovered version for tag `v1.5.0-alpha.1`. -/
def c8v : Version :=
  { Commit := "c", Tag := "v1.5.0-alpha.1", sv := parseVersion "v1.5.0-alpha.1",
    Virtual := "", Branch := "" }

/-- The parsed range of the C8 witness criterion. -/
def c8rng : VRange := [Comparison.cmpv CmpOp.gec ⟨1, 0, 0, "", ""⟩]

/-- The parsed semver of the C8 witness version. -/
def c8sv : SemVer := ⟨1, 5, 0, "alpha.1", ""⟩

/-- The re-parsed rewritten range `">=1.0.0-alpha"`. -/
def c8rng2 : VRange := [Comparison.cmpv CmpOp.gec ⟨1, 0, 0, "alpha", ""⟩]

/-- Witness for C8 at a concrete input: checking a track-`alpha` version
rewrites the constraint to `">=1.0.0-alpha"` and evaluates the rewritten
range. -/
theorem C8_witness :
    c8cr.Check c8v "alpha" "" =
      some (rangeCheck c8rng2 c8sv,
        { c8cr with Constraint := c8cr.Constraint ++ "-" ++ "alpha", c := some c8rng2, prerelease := "alpha" }) :=
  (C8_prerelease_rewrite c8cr c8v "alpha" "" c8rng c8sv c8rng2 (by decide) (by decide)
    (by decide) (by decide) (by decide) (by decide) (by decide)).1

/-! ## Cache lemmas -/

/-- Looking up the key just written returns the written value. -/
theorem lookup_setCache_self (m : List (String × List Version)) (k : String) (v : List Version) :
    lookupCache (setCache m k v) k = some v := by
  induction m with
  | nil => simp [setCache, lookupCache]
  | cons p rest ih =>
    rw [setCache]
    by_cases h : p.1 = k
    · rw [if_pos h, lookupCache, if_pos rfl]
    · rw [if_neg h, lookupCache, if_neg h, ih]

/-- Writing one key leaves every other key's entry unchanged. -/
theorem lookup_setCache_other (m : List (String × List Version)) (k k1 : String)
    (v : List Version) (h : k1 ≠ k) :
    lookupCache (setCache m k v) k1 = lookupCache m k1 := by
  have h' : ¬ k = k1 := fun he => h he.symm
  induction m with
  | nil => simp [setCache, lookupCache, h']
  | cons p rest ih =>
    rw [setCache]
    by_cases hp : p.1 = k
    · have hk1 : ¬ p.1 = k1 := by rw [hp]; exact h'
      rw [if_pos hp, lookupCache, if_neg h', lookupCache, if_neg hk1]
    · rw [if_neg hp, lookupCache, lookupCache, ih]

/-! ## C10 -/

/-- C10: when `Resolve` reaches its sorting step for a cached URI (the
criteria loop succeeds), the sort reorders the cached list itself: after
the call the cache holds exactly the sorted list, a permutation of the
originally fetched versions — the same multiset as before, possibly in a
different order. -/
theorem C10_sort_in_place (listRemote : String → Except String (List (List String)))
    (r : Resolver) (uri : String) (criteria crits : List Criteria) (pr br : String)
    (l : List Version)
    (hne : criteria ≠ [])
    (hparse : resolveParseLoop criteria "" "" = (none, crits, pr, br))
    (hcache : lookupCache r.versions uri = some l) :
    (Resolver.Resolve listRemote r uri criteria).2.1 =
      { versions := setCache r.versions uri (sortVersions l) } ∧
    List.Perm (sortVersions l) l := by
  refine ⟨?_, sortVersions_perm l⟩
  unfold Resolver.Resolve
  rw [if_neg (by simpa using hne), hparse]
  unfold fetchVersionsIfNecessary
  rw [hcache]
  rcases hsel : selectLoop crits pr br (sortVersions l) with _ | ⟨_ | v, crits2⟩ <;>
    simp [hsel]

/-- Concrete cache for the C10/C4 witnesses. -/
def c10resolver : Resolver := { versions := [("u", c3list)] }

/-- A listing collaborator that always fails; the cached paths under
scrutiny never reach it. -/
def lrFail : String → Except String (List (List String)) := fun _ => .error "network"

/-- Witness for C10 at a concrete input. -/
theorem C10_witness :
    (Resolver.Resolve lrFail c10resolver "u" [mkCriteria "*" ""]).2.1 =
      { versions := setCache c10resolver.versions "u" (sortVersions c3list) } ∧
    List.Perm (sortVersions c3list) c3list :=
  C10_sort_in_place lrFail c10resolver "u" [mkCriteria "*" ""]
    [(mkCriteria "*" "").Parse.1] "" "" c3list (by decide) (by decide) (by decide)

/-! ## C4 -/

/-- The selection loop of the code and the walk the spec describes are
the same function. -/
theorem selectLoop_eq_specWalk (crits : List Criteria) (pr br : String) (vs : List Version) :
    selectLoop crits pr br vs = specWalk crits pr br vs := by
  induction vs generalizing crits with
  | nil => rfl
  | cons v rest ih =>
    rw [selectLoop, specWalk]
    rcases checkAll crits v pr br with _ | ⟨_ | _, crits1⟩
    · rfl
    · exact ih crits1
    · rfl

/-- C4: for a cached version list and a non-empty criteria list that
parses without error or conflict, `Resolve` returns exactly what the
spec's walk over the sorted candidates produces: the first version all
criteria accept, or the unable-to-satisfy error when the walk exhausts
the list. -/
theorem C4_first_satisfying (listRemote : String → Except String (List (List String)))
    (r : Resolver) (uri : String) (criteria crits crits2 : List Criteria) (pr br : String)
    (l : List Version) (found : Option Version)
    (hne : criteria ≠ [])
    (hparse : resolveParseLoop criteria "" "" = (none, crits, pr, br))
    (hcache : lookupCache r.versions uri = some l)
    (hwalk : specWalk crits pr br (sortVersions l) = some (found, crits2)) :
    (Resolver.Resolve listRemote r uri criteria).1 =
      (match found with
        | some v => ResolveResult.ok v
        | none => ResolveResult.err ResolveError.unableToSatisfy) := by
  have hsel : selectLoop crits pr br (sortVersions l) = some (found, crits2) := by
    rw [selectLoop_eq_specWalk]; exact hwalk
  unfold Resolver.Resolve fetchVersionsIfNecessary
  rw [if_neg (by simpa using hne), hparse, hcache]
  rcases found with _ | v <;> simp [hsel]

/-- Witness for C4 at a concrete input: with the wildcard criterion the
walk selects the newest tag `v2.0.0`, and `Resolve` returns it. -/
theorem C4_witness :
    (Resolver.Resolve lrFail c10resolver "u" [mkCriteria "*" ""]).1 =
      ResolveResult.ok
        { Commit := "c3", Tag := "v2.0.0", sv := parseVersion "v2.0.0", Virtual := "", Branch := "" } :=
  C4_first_satisfying lrFail c10resolver "u" [mkCriteria "*" ""]
    [(mkCriteria "*" "").Parse.1] [(mkCriteria "*" "").Parse.1] "" "" c3list
    (some { Commit := "c3", Tag := "v2.0.0", sv := parseVersion "v2.0.0", Virtual := "", Branch := "" })
    (by decide) (by decide) (by decide) (by decide)

/-! ## C5 -/

/-- The criteria loop surfaces a conflict whenever the criteria all
parse without error and the list contains a branch conflict or a
pre-release-track conflict (stated with accumulators for the
induction). -/

theorem parseLoop_conflict (l : List Criteria) : ∀ (pr br : String),
    (∀ cr ∈ l, cr.Parse.2 = none) →
    ((∃ c1 ∈ l, ∃ c2 ∈ l, c1.Branch ≠ "" ∧ c2.Branch ≠ "" ∧ c1.Branch ≠ c2.Branch) ∨
     (∃ c1 ∈ l, c1.Branch ≠ "" ∧ br ≠ "" ∧ br ≠ c1.Branch) ∨
     (∃ t1 t2, (∃ c1 ∈ l, prTrack c1 = some t1) ∧ (∃ c2 ∈ l, prTrack c2 = some t2) ∧ t1 ≠ t2) ∨
     (∃ c1 ∈ l, ∃ t, prTrack c1 = some t ∧ pr ≠ "" ∧ pr ≠ t)) →
    ∃ e cs p b, resolveParseLoop l pr br = (some e, cs, p, b) ∧ isConflictErr e = true := by
  induction l with
  | nil =>
    intro pr br _ hconf
    simp at hconf
  | cons cr rest ih =>
    intro pr br hok hconf
    have hpe : cr.Parse.2 = none := hok cr (List.mem_cons_self _ _)
    have hok' : ∀ c ∈ rest, c.Parse.2 = none := fun c hm => hok c (List.mem_cons_of_mem _ hm)
    rw [resolveParseLoop]
    by_cases hA : cr.Branch ≠ "" ∧ br ≠ "" ∧ br ≠ cr.Branch
    · rw [if_pos hA]
      exact ⟨_, _, _, _, rfl, rfl⟩
    · rw [if_neg hA]
      simp only [hpe]
      have hbr1eq : br ≠ "" → (if cr.Branch ≠ "" then cr.Branch else br) = br := by
        intro hbr
        by_cases hcb : cr.Branch ≠ ""
        · rw [if_pos hcb]
          by_cases hbc : br = cr.Branch
          · exact hbc.symm
          · exact absurd ⟨hcb, hbr, hbc⟩ hA
        · rw [if_neg hcb]
      by_cases hB : cr.Parse.1.c.isSome ∧ cr.Parse.1.prerelease ≠ ""
      · have htrcr : prTrack cr = some cr.Parse.1.prerelease := by
          unfold prTrack
          rw [if_pos hB]
        rw [if_pos hB]
        by_cases hB1 : pr ≠ "" ∧ pr ≠ cr.Parse.1.prerelease
        · rw [if_pos hB1]
          exact ⟨_, _, _, _, rfl, rfl⟩
        · rw [if_neg hB1]
          have hnot : pr = "" ∨ pr = cr.Parse.1.prerelease := by
            by_cases h1 : pr = ""
            · exact Or.inl h1
            · right
              by_cases h2 : pr = cr.Parse.1.prerelease
              · exact h2
              · exact absurd ⟨h1, h2⟩ hB1
          have htail :
              (∃ c1 ∈ rest, ∃ c2 ∈ rest, c1.Branch ≠ "" ∧ c2.Branch ≠ "" ∧ c1.Branch ≠ c2.Branch) ∨
              (∃ c1 ∈ rest, c1.Branch ≠ "" ∧ (if cr.Branch ≠ "" then cr.Branch else br) ≠ "" ∧
                (if cr.Branch ≠ "" then cr.Branch else br) ≠ c1.Branch) ∨
              (∃ t1 t2, (∃ c1 ∈ rest, prTrack c1 = some t1) ∧
                (∃ c2 ∈ rest, prTrack c2 = some t2) ∧ t1 ≠ t2) ∨
              (∃ c1 ∈ rest, ∃ t, prTrack c1 = some t ∧ cr.Parse.1.prerelease ≠ "" ∧
                cr.Parse.1.prerelease ≠ t) := by
            rcases hconf with ⟨c1, h1m, c2, h2m, hb1, hb2, hbne⟩ |
                ⟨c1, h1m, hb, hbr, hbne⟩ |
                ⟨t1, t2, ⟨c1, h1m, htr1⟩, ⟨c2, h2m, htr2⟩, htne⟩ |
                ⟨c1, h1m, t1, htr1, hprn, hprne⟩
            · rcases List.mem_cons.mp h1m with rfl | h1r
              · rcases List.mem_cons.mp h2m with rfl | h2r
                · exact absurd rfl hbne
                · refine Or.inr (Or.inl ⟨c2, h2r, hb2, ?_, ?_⟩)
                  · rw [if_pos hb1]; exact hb1
                  · rw [if_pos hb1]; exact hbne
              · rcases List.mem_cons.mp h2m with rfl | h2r
                · refine Or.inr (Or.inl ⟨c1, h1r, hb1, ?_, ?_⟩)
                  · rw [if_pos hb2]; exact hb2
                  · rw [if_pos hb2]; exact fun he => hbne he.symm
                · exact Or.inl ⟨c1, h1r, c2, h2r, hb1, hb2, hbne⟩
            · rcases List.mem_cons.mp h1m with rfl | h1r
              · exact absurd ⟨hb, hbr, hbne⟩ hA
              · refine Or.inr (Or.inl ⟨c1, h1r, hb, ?_, ?_⟩)
                · rw [hbr1eq hbr]; exact hbr
                · rw [hbr1eq hbr]; exact hbne
            · rcases List.mem_cons.mp h1m with rfl | h1r
              · rw [htrcr] at htr1
                injection htr1 with ht1
                rcases List.mem_cons.mp h2m with rfl | h2r
                · rw [htrcr] at htr2
                  injection htr2 with ht2
                  exact absurd (ht1.symm.trans ht2) htne
                · refine Or.inr (Or.inr (Or.inr ⟨c2, h2r, t2, htr2, hB.2, ?_⟩))
                  rw [ht1]
                  exact htne
              · rcases List.mem_cons.mp h2m with rfl | h2r
                · rw [htrcr] at htr2
                  injection htr2 with ht2
                  refine Or.inr (Or.inr (Or.inr ⟨c1, h1r, t1, htr1, hB.2, ?_⟩))
                  rw [ht2]
                  exact fun he => htne he.symm
                · exact Or.inr (Or.inr (Or.inl ⟨t1, t2, ⟨c1, h1r, htr1⟩, ⟨c2, h2r, htr2⟩, htne⟩))
            · rcases List.mem_cons.mp h1m with rfl | h1r
              · rw [htrcr] at htr1
                injection htr1 with ht1
                rcases hnot with h0 | hpt
                · exact absurd h0 hprn
                · exact absurd (hpt.trans ht1) hprne
              · rcases hnot with h0 | hpt
                · exact absurd h0 hprn
                · refine Or.inr (Or.inr (Or.inr ⟨c1, h1r, t1, htr1, ?_, ?_⟩))
                  · rw [← hpt]; exact hprn
                  · rw [← hpt]; exact hprne
          obtain ⟨e, cs, p, b, heq, hce⟩ :=
            ih cr.Parse.1.prerelease (if cr.Branch ≠ "" then cr.Branch else br) hok' htail
          refine ⟨e, cr.Parse.1 :: cs, p, b, ?_, hce⟩
          rw [heq]
      · have htrcr : prTrack cr = none := by
          unfold prTrack
          rw [if_neg hB]
        rw [if_neg hB]
        have htail :
            (∃ c1 ∈ rest, ∃ c2 ∈ rest, c1.Branch ≠ "" ∧ c2.Branch ≠ "" ∧ c1.Branch ≠ c2.Branch) ∨
            (∃ c1 ∈ rest, c1.Branch ≠ "" ∧ (if cr.Branch ≠ "" then cr.Branch else br) ≠ "" ∧
              (if cr.Branch ≠ "" then cr.Branch else br) ≠ c1.Branch) ∨
            (∃ t1 t2, (∃ c1 ∈ rest, prTrack c1 = some t1) ∧
              (∃ c2 ∈ rest, prTrack c2 = some t2) ∧ t1 ≠ t2) ∨
            (∃ c1 ∈ rest, ∃ t, prTrack c1 = some t ∧ pr ≠ "" ∧ pr ≠ t) := by
          rcases hconf with ⟨c1, h1m, c2, h2m, hb1, hb2, hbne⟩ |
              ⟨c1, h1m, hb, hbr, hbne⟩ |
              ⟨t1, t2, ⟨c1, h1m, htr1⟩, ⟨c2, h2m, htr2⟩, htne⟩ |
              ⟨c1, h1m, t1, htr1, hprn, hprne⟩
          · rcases List.mem_cons.mp h1m with rfl | h1r
            · rcases List.mem_cons.mp h2m with rfl | h2r
              · exact absurd rfl hbne
              · refine Or.inr (Or.inl ⟨c2, h2r, hb2, ?_, ?_⟩)
                · rw [if_pos hb1]; exact hb1
                · rw [if_pos hb1]; exact hbne
            · rcases List.mem_cons.mp h2m with rfl | h2r
              · refine Or.inr (Or.inl ⟨c1, h1r, hb1, ?_, ?_⟩)
                · rw [if_pos hb2]; exact hb2
                · rw [if_pos hb2]; exact fun he => hbne he.symm
              · exact Or.inl ⟨c1, h1r, c2, h2r, hb1, hb2, hbne⟩
          · rcases List.mem_cons.mp h1m with rfl | h1r
            · exact absurd ⟨hb, hbr, hbne⟩ hA
            · refine Or.inr (Or.inl ⟨c1, h1r, hb, ?_, ?_⟩)
              · rw [hbr1eq hbr]; exact hbr
              · rw [hbr1eq hbr]; exact hbne
          · rcases List.mem_cons.mp h1m with rfl | h1r
            · rw [htrcr] at htr1
              cases htr1
            · rcases List.mem_cons.mp h2m with rfl | h2r
              · rw [htrcr] at htr2
                cases htr2
              · exact Or.inr (Or.inr (Or.inl ⟨t1, t2, ⟨c1, h1r, htr1⟩, ⟨c2, h2r, htr2⟩, htne⟩))
          · rcases List.mem_cons.mp h1m with rfl | h1r
            · rw [htrcr] at htr1
              cases htr1
            · exact Or.inr (Or.inr (Or.inr ⟨c1, h1r, t1, htr1, hprn, hprne⟩))
        obtain ⟨e, cs, p, b, heq, hce⟩ :=
          ih pr (if cr.Branch ≠ "" then cr.Branch else br) hok' htail
        refine ⟨e, cr.Parse.1 :: cs, p, b, ?_, hce⟩
        rw [heq]

/-- C5 counterexample: two criteria naming different non-empty branches
do not always produce the branch-conflict error — a criterion whose
constraint fails to parse (here the complex constraint `"a||b"`)
pre-empts the conflict with a parse error.  (No fetch occurs either
way.) -/
theorem C5_counterexample :
    ((mkCriteria "a||b" "x").Branch ≠ "" ∧ (mkCriteria "" "y").Branch ≠ "" ∧
      (mkCriteria "a||b" "x").Branch ≠ (mkCriteria "" "y").Branch) ∧
    (Resolver.Resolve lrFail NewResolver "u" [mkCriteria "a||b" "x", mkCriteria "" "y"]).1 =
      ResolveResult.err (ResolveError.criteriaParse ParseError.unsupportedConstraint) ∧
    (Resolver.Resolve lrFail NewResolver "u" [mkCriteria "a||b" "x", mkCriteria "" "y"]).2.2.2 =
      false := by
  decide

/-- C5 (amended): when every supplied criterion parses without error,
a branch conflict (two criteria naming different non-empty branches) or
a pre-release conflict (two criteria carrying, via a parsed range,
different non-empty tracks) makes `Resolve` fail with one of the two
conflict errors, with the resolver state unchanged and the listing
collaborator not invoked — no fetch occurs and the cache is
untouched. -/
theorem C5_conflicts_fail_before_fetch (listRemote : String → Except String (List (List String)))
    (r : Resolver) (uri : String) (criteria : List Criteria)
    (hok : ∀ cr ∈ criteria, cr.Parse.2 = none)
    (hconf :
      (∃ c1 ∈ criteria, ∃ c2 ∈ criteria,
        c1.Branch ≠ "" ∧ c2.Branch ≠ "" ∧ c1.Branch ≠ c2.Branch) ∨
      (∃ t1 t2, (∃ c1 ∈ criteria, prTrack c1 = some t1) ∧
        (∃ c2 ∈ criteria, prTrack c2 = some t2) ∧ t1 ≠ t2)) :
    ∃ e cs, Resolver.Resolve listRemote r uri criteria = (.err e, r, cs, false) ∧
      isConflictErr e = true := by
  have hconf4 :
      (∃ c1 ∈ criteria, ∃ c2 ∈ criteria,
        c1.Branch ≠ "" ∧ c2.Branch ≠ "" ∧ c1.Branch ≠ c2.Branch) ∨
      (∃ c1 ∈ criteria, c1.Branch ≠ "" ∧ ("" : String) ≠ "" ∧ ("" : String) ≠ c1.Branch) ∨
      (∃ t1 t2, (∃ c1 ∈ criteria, prTrack c1 = some t1) ∧
        (∃ c2 ∈ criteria, prTrack c2 = some t2) ∧ t1 ≠ t2) ∨
      (∃ c1 ∈ criteria, ∃ t, prTrack c1 = some t ∧ ("" : String) ≠ "" ∧ ("" : String) ≠ t) := by
    rcases hconf with h | h
    · exact Or.inl h
    · exact Or.inr (Or.inr (Or.inl h))
  obtain ⟨e, cs, p, b, hloop, hce⟩ := parseLoop_conflict criteria "" "" hok hconf4
  have hnil : criteria ≠ [] := by
    rcases hconf with ⟨c1, h1m, _⟩ | ⟨t1, t2, ⟨c1, h1m, _⟩, _⟩ <;> exact List.ne_nil_of_mem h1m
  refine ⟨e, cs, ?_, hce⟩
  unfold Resolver.Resolve
  rw [if_neg (by simpa using hnil), hloop]

/-- Witness for C5 at a concrete input: two bare branch pins on
different branches. -/
theorem C5_witness :
    ∃ e cs, Resolver.Resolve lrFail NewResolver "u" [mkCriteria "" "x", mkCriteria "" "y"] =
      (.err e, NewResolver, cs, false) ∧ isConflictErr e = true :=
  C5_conflicts_fail_before_fetch lrFail NewResolver "u" [mkCriteria "" "x", mkCriteria "" "y"]
    (by decide) (Or.inl (by decide))

/-! ## C9 -/

/-- A `Resolve` call against a resolver whose cache already holds the
URI never invokes the collaborator for that URI and keeps the entry
present — whatever other URI the call targets. -/

theorem resolve_cached_preserves (listRemote : String → Except String (List (List String)))
    (r : Resolver) (uri uri1 : String) (criteria : List Criteria)
    (h : (lookupCache r.versions uri).isSome = true) :
    (uri1 = uri → (Resolver.Resolve listRemote r uri1 criteria).2.2.2 = false) ∧
    (lookupCache (Resolver.Resolve listRemote r uri1 criteria).2.1.versions uri).isSome = true := by
  unfold Resolver.Resolve
  by_cases hemp : criteria.isEmpty
  · rw [if_pos hemp]
    exact ⟨fun _ => rfl, h⟩
  · rw [if_neg hemp]
    rcases hloop : resolveParseLoop criteria "" "" with ⟨oe, cs, p, b⟩
    rcases oe with _ | e
    · -- no parse error: the fetch runs
      unfold fetchVersionsIfNecessary
      rcases hluk : lookupCache r.versions uri1 with _ | vs
      · -- uri1 not cached, so uri1 ≠ uri
        have hne : uri1 ≠ uri := by
          intro he
          rw [← he, hluk] at h
          simp at h
        have hne1 : uri ≠ uri1 := fun he => hne he.symm
        rcases hlr : listRemote uri1 with msg | rows
        · exact ⟨fun he => absurd he hne, h⟩
        · have hlook2 :
              (lookupCache
                (setCache (setCache r.versions uri1 (rows.filterMap rowToVersion)) uri1
                  (sortVersions (rows.filterMap rowToVersion))) uri).isSome = true := by
            rw [lookup_setCache_other _ _ _ _ hne1, lookup_setCache_other _ _ _ _ hne1]
            exact h
          rcases hsel : selectLoop cs p b (sortVersions (rows.filterMap rowToVersion)) with
              _ | ⟨op, cs2⟩
          · simp only [hsel]
            exact ⟨fun he => absurd he hne, hlook2⟩
          · rcases op with _ | v
            · simp only [hsel]
              exact ⟨fun he => absurd he hne, hlook2⟩
            · simp only [hsel]
              exact ⟨fun he => absurd he hne, hlook2⟩
      · -- uri1 cached: no fetch
        have hlook2 :
            (lookupCache (setCache r.versions uri1 (sortVersions vs)) uri).isSome = true := by
          by_cases he : uri1 = uri
          · rw [he, lookup_setCache_self]
            rfl
          · rw [lookup_setCache_other _ _ _ _ (fun hx => he hx.symm)]
            exact h
        rcases hsel : selectLoop cs p b (sortVersions vs) with _ | ⟨op, cs2⟩
        · simp only [hsel]
          exact ⟨fun _ => trivial, hlook2⟩
        · rcases op with _ | v
          · simp only [hsel]
            exact ⟨fun _ => trivial, hlook2⟩
          · simp only [hsel]
            exact ⟨fun _ => trivial, hlook2⟩
    · exact ⟨fun _ => rfl, h⟩

/-- A log entry that does not count (wrong URI or no fetch) leaves the
fetch count unchanged. -/
theorem fetchCount_cons_skip (u s : String) (f : Bool) (log : List (String × Bool))
    (h : s = u → f = false) :
    fetchCount u ((s, f) :: log) = fetchCount u log := by
  have hp : (decide (s = u) && f) = false := by
    by_cases h1 : s = u
    · simp [h1, h h1]
    · simp [h1]
  simp [fetchCount, List.filter_cons, hp]

/-- C9 (amended): once the cache holds a URI, any sequence of further
`Resolve` calls performs zero collaborator fetches for that URI and the
entry persists (it is never invalidated); and any single `Resolve` call
that invoked the collaborator and did not fail with a listing error
leaves the URI cached.  Together: at most one successful fetch per URI
for the resolver's lifetime; only failed listing calls can repeat. -/
theorem C9_fetch_once_after_success :
    (∀ (listRemote : String → Except String (List (List String))) (r : Resolver)
        (reqs : List RRequest) (uri : String),
      (lookupCache r.versions uri).isSome = true →
      fetchCount uri (runResolves listRemote r reqs).2 = 0 ∧
      (lookupCache (runResolves listRemote r reqs).1.versions uri).isSome = true) ∧
    (∀ (listRemote : String → Except String (List (List String))) (r : Resolver)
        (uri : String) (criteria : List Criteria),
      (Resolver.Resolve listRemote r uri criteria).2.2.2 = true →
      (∀ msg, (Resolver.Resolve listRemote r uri criteria).1 ≠
        ResolveResult.err (ResolveError.listing msg)) →
      (lookupCache (Resolver.Resolve listRemote r uri criteria).2.1.versions uri).isSome = true) := by
  constructor
  · intro lr r reqs uri h
    induction reqs generalizing r with
    | nil => exact ⟨rfl, h⟩
    | cons q qs ih =>
      obtain ⟨hf, hsome⟩ := resolve_cached_preserves lr r uri q.uri q.criteria h
      obtain ⟨hcount, hsome2⟩ := ih _ hsome
      rw [runResolves]
      refine ⟨?_, hsome2⟩
      rw [fetchCount_cons_skip _ _ _ _ hf]
      exact hcount
  · intro lr r uri criteria hf hnl
    unfold Resolver.Resolve at hf hnl ⊢
    by_cases hemp : criteria.isEmpty
    · rw [if_pos hemp] at hf
      cases hf
    · rw [if_neg hemp] at hf hnl ⊢
      rcases hloop : resolveParseLoop criteria "" "" with ⟨oe, cs, p, b⟩
      rw [hloop] at hf hnl
      rcases oe with _ | e
      · unfold fetchVersionsIfNecessary at hf hnl ⊢
        rcases hluk : lookupCache r.versions uri with _ | vs
        · rw [hluk] at hf hnl
          rcases hlr : lr uri with msg | rows
          · rw [hlr] at hnl
            exact absurd rfl (hnl msg)
          · rw [hlr] at hf hnl
            rcases hsel : selectLoop cs p b (sortVersions (rows.filterMap rowToVersion)) with
                _ | ⟨op, cs2⟩
            · simp only [hsel]
              rw [lookup_setCache_self]
              rfl
            · rcases op with _ | v <;> simp only [hsel] <;> rw [lookup_setCache_self] <;> rfl
        · rw [hluk] at hf
          rcases hsel : selectLoop cs p b (sortVersions vs) with _ | ⟨op, cs2⟩
          · simp only [hsel] at hf
            cases hf
          · rcases op with _ | v <;> simp only [hsel] at hf <;> cases hf
      · simp only at hf
        cases hf

/-- C9 counterexample: the collaborator is not called at most once per
URI across `Resolve` calls — when the listing call fails, nothing is
cached and the next `Resolve` for the same URI invokes the collaborator
again: two calls, two invocations. -/
theorem C9_counterexample :
    fetchCount "u" (runResolves lrFail NewResolver
      [⟨"u", [mkCriteria "" ""]⟩, ⟨"u", [mkCriteria "" ""]⟩]).2 = 2 := by
  decide

/-- Witness for C9 at a concrete input: with the URI cached, two more
`Resolve` calls fetch nothing and the entry survives. -/
theorem C9_witness :
    fetchCount "u" (runResolves lrFail c10resolver
      [⟨"u", [mkCriteria "*" ""]⟩, ⟨"u", [mkCriteria "*" ""]⟩]).2 = 0 ∧
    (lookupCache (runResolves lrFail c10resolver
      [⟨"u", [mkCriteria "*" ""]⟩, ⟨"u", [mkCriteria "*" ""]⟩]).1.versions "u").isSome = true :=
  C9_fetch_once_after_success.1 lrFail c10resolver
    [⟨"u", [mkCriteria "*" ""]⟩, ⟨"u", [mkCriteria "*" ""]⟩] "u" (by decide)
